import Mathlib

/-!
# Verification of `sail`'s sample resolver and Spark-compatible xorshift generator

Shallow embedding of two Rust source files:

* `scripts/rng-test/src/main.rs` — `SparkXorShiftRandom`, a port of Spark's
  `XORShiftRandom` (murmur3-based seed hashing, 64-bit xorshift core, double
  derivation), together with its acceptance harness's reference values.
* `crates/sail-plan/src/resolver/query/sample.rs` — the sample-operator plan
  resolver (bounds validation, seed resolution, projection of a random column,
  Bernoulli filtering / Poisson row expansion).

Machine integers are embedded as `Nat` bit patterns with explicit reduction
modulo `2^32` / `2^64`; `i32`/`i64` values are recovered through two's
complement reinterpretation where the source reads them as signed.  `f64`
values appearing here (the 53-bit-mantissa doubles produced by `next_double`
and the literal bounds of a sample specification) are embedded as `ℚ`: every
float operation performed by the embedded code (building an integer below
`2^53`, dividing it by `2^53`, comparing bounds) is exact on those values, so
the rational model agrees bit-for-bit with the IEEE-754 computation.
-/

namespace SparkXorShiftRandom

/-- Truncation to a 32-bit lane (`u32` wrapping arithmetic). -/
def u32 (x : Nat) : Nat := x % 2 ^ 32

/-- Truncation to a 64-bit lane (`i64`/`u64` bit pattern). -/
def u64 (x : Nat) : Nat := x % 2 ^ 64

/-- Rust's `u32::rotate_left` on a 32-bit pattern. -/
def rotateLeft32 (x r : Nat) : Nat := u32 (x <<< r) ||| (x >>> (32 - r))

/-- Two's-complement reading of a 32-bit pattern as an `i32` value. -/
def toInt32 (x : Nat) : Int := if x < 2 ^ 31 then (x : Int) else (x : Int) - 2 ^ 32

/-- The 64-bit pattern of an `i64` value (two's complement). -/
def i64pat (x : Int) : Nat := (x % 2 ^ 64).toNat

/-- Byte `i` of a byte list, as read by the Rust slice indexing (`data[i]`). -/
def getByte (data : List Nat) (i : Nat) : Nat := data.getD i 0

/-- `i64::to_be_bytes`: the 8 bytes of the seed's pattern in big-endian order. -/
def to_be_bytes (p : Nat) : List Nat :=
  [(p >>> 56) % 256, (p >>> 48) % 256, (p >>> 40) % 256, (p >>> 32) % 256,
   (p >>> 24) % 256, (p >>> 16) % 256, (p >>> 8) % 256, p % 256]

/-- `SparkXorShiftRandom::mix`: the murmur3 per-block combine step. -/
def mix (h1 k1 : Nat) : Nat :=
  let k := u32 (k1 * 0xcc9e2d51)
  let k := rotateLeft32 k 15
  let k := u32 (k * 0x1b873593)
  let h := h1 ^^^ k
  let h := rotateLeft32 h 13
  u32 (h * 5 + 0xe6546b64)

/-- `SparkXorShiftRandom::fmix32`: the murmur3 finalization avalanche. -/
def fmix32 (h0 : Nat) : Nat :=
  let h := h0 ^^^ (h0 >>> 16)
  let h := u32 (h * 0x85ebca6b)
  let h := h ^^^ (h >>> 13)
  let h := u32 (h * 0xc2b2ae35)
  h ^^^ (h >>> 16)

/-- `SparkXorShiftRandom::murmur3_bytes_hash`: Scala's `MurmurHash3.bytesHash`.
Little-endian 4-byte blocks through `mix`, 0–3 tail bytes, length xor,
finalization via `fmix32`. -/
def murmur3_bytes_hash (data : List Nat) (seed : Nat) : Nat :=
  let len := data.length
  let nBlocks := len / 4
  let h1 := (List.range nBlocks).foldl
    (fun h i =>
      let i4 := i * 4
      let k1 := getByte data i4 + getByte data (i4 + 1) * 2 ^ 8 +
                getByte data (i4 + 2) * 2 ^ 16 + getByte data (i4 + 3) * 2 ^ 24
      mix h k1) seed
  let tailStart := nBlocks * 4
  let tailLen := len - tailStart
  let k1 : Nat := 0
  let k1 := if 3 ≤ tailLen then k1 ^^^ (getByte data (tailStart + 2) <<< 16) else k1
  let k1 := if 2 ≤ tailLen then k1 ^^^ (getByte data (tailStart + 1) <<< 8) else k1
  let h1 :=
    if 1 ≤ tailLen then
      let k1 := k1 ^^^ getByte data tailStart
      let k1 := u32 (k1 * 0xcc9e2d51)
      let k1 := rotateLeft32 k1 15
      let k1 := u32 (k1 * 0x1b873593)
      h1 ^^^ k1
    else h1
  fmix32 (h1 ^^^ u32 len)

/-- `MurmurHash3.arraySeed`. -/
def array_seed : Nat := 0x3c074a61

/-- `SparkXorShiftRandom::hash_seed`: hash the big-endian seed bytes twice and
combine as `(highBits << 32) | (lowBits & 0xFFFFFFFF)`.  Argument and result
are 64-bit patterns. -/
def hash_seed (seed : Nat) : Nat :=
  let bytes := to_be_bytes seed
  let low_bits := murmur3_bytes_hash bytes array_seed
  let high_bits := murmur3_bytes_hash bytes low_bits
  (high_bits <<< 32) ||| (low_bits &&& 0xFFFFFFFF)

/-- `SparkXorShiftRandom::new`: the initial generator state for an `i64` seed. -/
def new (init : Int) : Nat := hash_seed (i64pat init)

/-- `SparkXorShiftRandom::next`: one xorshift step.  Returns the `i32` result
(`(next_seed & ((1i64 << bits) - 1)) as i32`) and the new 64-bit state. -/
def next (state : Nat) (bits : Nat) : Int × Nat :=
  let next_seed := u64 (state ^^^ u64 (state <<< 21))
  let next_seed := next_seed ^^^ (next_seed >>> 35)
  let next_seed := u64 (next_seed ^^^ u64 (next_seed <<< 4))
  (toInt32 (next_seed &&& ((1 <<< bits) - 1)), next_seed)

/-- `SparkXorShiftRandom::next_double`: `((next(26) as i64) << 27) + next(27)`
divided by `2^53`.  Both `f64` steps (the `as f64` conversion of an integer
below `2^53` and the division by the power of two `2^53`) are exact, so the
result is embedded as the exact rational. -/
def next_double (state : Nat) : ℚ × Nat :=
  let p1 := next state 26
  let p2 := next p1.2 27
  ((((p1.1 * 2 ^ 27 + p2.1 : Int) : ℚ) / 2 ^ 53), p2.2)

/-- The integer numerator `(next(26) as i64) << 27) + next(27)` computed by
`next_double` before the exact conversion to `f64`, with the new state. -/
def step (state : Nat) : Int × Nat :=
  let p1 := next state 26
  let p2 := next p1.2 27
  (p1.1 * 2 ^ 27 + p2.1, p2.2)

/-- The stream of the first `n` doubles from a given state. -/
def doublesFrom : Nat → Nat → List ℚ
  | _, 0 => []
  | s, n + 1 =>
    let p := next_double s
    p.1 :: doublesFrom p.2 n

/-- The integer numerators of the first `n` doubles from a given state. -/
def numsFrom : Nat → Nat → List Int
  | _, 0 => []
  | s, n + 1 => (step s).1 :: numsFrom (step s).2 n

theorem next_double_eq_step (s : Nat) :
    next_double s = (((step s).1 : ℚ) / 2 ^ 53, (step s).2) := rfl

theorem doublesFrom_eq_numsFrom (s n : Nat) :
    doublesFrom s n = (numsFrom s n).map fun k : Int => ((k : ℚ) / 2 ^ 53) := by
  induction n generalizing s with
  | zero => rfl
  | succ m ih => simp [doublesFrom, numsFrom, next_double_eq_step, ih]

/-- `SPARK_XORSHIFT_SEED_1`: the harness's reference doubles for seed 1, read
as exact decimal rationals (each literal is within `2^-54` of the `f64` it
denotes, far below the `1e-15` comparison tolerance). -/
def SPARK_XORSHIFT_SEED_1 : List ℚ :=
  [6363787615254752 / 10 ^ 16,
   5993846534021868 / 10 ^ 16,
   134842710012538 / 10 ^ 15,
   7684163905460906 / 10 ^ 17,
   8539211111755448 / 10 ^ 16]

/-- `SPARK_XORSHIFT_SEED_24`: the harness's reference doubles for seed 24. -/
def SPARK_XORSHIFT_SEED_24 : List ℚ :=
  [3943255396952755 / 10 ^ 16,
   48619924381941027 / 10 ^ 17,
   2923951640552428 / 10 ^ 16,
   33335316633280176 / 10 ^ 17,
   3981939745854918 / 10 ^ 16]

/-- The harness's per-value check: absolute error below `1e-15`. -/
def withinTol (a b : ℚ) : Prop := |a - b| < 1 / 10 ^ 15

/-! ## Spec-side definitions (claim wording, for the refinement claims) -/

/-- The block-mix step exactly as C2's wording lists it: multiply by
`0xcc9e2d51`, rotate left 15, multiply by `0x1b873593`, xor into the state,
rotate left 13, multiply by 5 and add `0xe6546b64` (32-bit lanes). -/
def specBlockStep (h k : Nat) : Nat :=
  u32 (rotateLeft32 (h ^^^ u32 (rotateLeft32 (u32 (k * 0xcc9e2d51)) 15 * 0x1b873593)) 13 * 5 +
    0xe6546b64)

/-- The finalization avalanche exactly as C2's wording lists it: xor-shift 16,
multiply `0x85ebca6b`, xor-shift 13, multiply `0xc2b2ae35`, xor-shift 16. -/
def specAvalanche (h : Nat) : Nat :=
  let h1 := u32 ((h ^^^ (h >>> 16)) * 0x85ebca6b)
  let h2 := u32 ((h1 ^^^ (h1 >>> 13)) * 0xc2b2ae35)
  h2 ^^^ (h2 >>> 16)

/-- C2's described murmur3 hash of the 8 seed bytes: two little-endian 4-byte
blocks through `specBlockStep`, no remaining tail bytes (8 is a multiple of 4),
xor in the length 8, then the avalanche. -/
def specMurmur3On8Bytes (b : List Nat) (seed : Nat) : Nat :=
  let k1 := getByte b 0 + getByte b 1 * 2 ^ 8 + getByte b 2 * 2 ^ 16 + getByte b 3 * 2 ^ 24
  let k2 := getByte b 4 + getByte b 5 * 2 ^ 8 + getByte b 6 * 2 ^ 16 + getByte b 7 * 2 ^ 24
  specAvalanche (specBlockStep (specBlockStep seed k1) k2 ^^^ 8)

/-- C2's described seed-hash computation: big-endian seed bytes, first hash
with seed constant `0x3c074a61`, second hash seeded with the first hash, then
`(secondHash << 32) | (firstHash & 0xFFFFFFFF)`. -/
def hash_seed_spec (seed : Nat) : Nat :=
  let bytes := to_be_bytes seed
  let firstHash := specMurmur3On8Bytes bytes 0x3c074a61
  let secondHash := specMurmur3On8Bytes bytes firstHash
  (secondHash <<< 32) ||| (firstHash &&& 0xFFFFFFFF)

/-- The state-update formula exactly as C3's wording lists it:
`s ^= s << 21; s ^= s >>> 35 (unsigned); s ^= s << 4` on the 64-bit lane. -/
def xorshift_step_spec (s : Nat) : Nat :=
  let s1 := u64 (s ^^^ u64 (s <<< 21))
  let s2 := s1 ^^^ (s1 >>> 35)
  u64 (s2 ^^^ u64 (s2 <<< 4))

/-! ## Helper lemmas -/

theorem mix_eq_specBlockStep (h k : Nat) : mix h k = specBlockStep h k := rfl

theorem fmix32_eq_specAvalanche (h : Nat) : fmix32 h = specAvalanche h := rfl

theorem murmur3_bytes_hash_on8 (b0 b1 b2 b3 b4 b5 b6 b7 seed : Nat) :
    murmur3_bytes_hash [b0, b1, b2, b3, b4, b5, b6, b7] seed =
      fmix32 (mix (mix seed (b0 + b1 * 2 ^ 8 + b2 * 2 ^ 16 + b3 * 2 ^ 24))
        (b4 + b5 * 2 ^ 8 + b6 * 2 ^ 16 + b7 * 2 ^ 24) ^^^ 8) := by
  have hr : List.range 2 = [0, 1] := rfl
  have hfold : ∀ (f : Nat → Nat → Nat) (a : Nat), List.foldl f a [0, 1] = f (f a 0) 1 :=
    fun f a => rfl
  have g0 : getByte [b0, b1, b2, b3, b4, b5, b6, b7] 0 = b0 := rfl
  have g1 : getByte [b0, b1, b2, b3, b4, b5, b6, b7] 1 = b1 := rfl
  have g2 : getByte [b0, b1, b2, b3, b4, b5, b6, b7] 2 = b2 := rfl
  have g3 : getByte [b0, b1, b2, b3, b4, b5, b6, b7] 3 = b3 := rfl
  have g4 : getByte [b0, b1, b2, b3, b4, b5, b6, b7] 4 = b4 := rfl
  have g5 : getByte [b0, b1, b2, b3, b4, b5, b6, b7] 5 = b5 := rfl
  have g6 : getByte [b0, b1, b2, b3, b4, b5, b6, b7] 6 = b6 := rfl
  have g7 : getByte [b0, b1, b2, b3, b4, b5, b6, b7] 7 = b7 := rfl
  have hu : u32 8 = 8 := rfl
  simp only [murmur3_bytes_hash, List.length_cons, List.length_nil]
  norm_num
  rw [hr, hfold]
  norm_num [g0, g1, g2, g3, g4, g5, g6, g7, hu]

theorem specMurmur3On8Bytes_eq (b0 b1 b2 b3 b4 b5 b6 b7 seed : Nat) :
    specMurmur3On8Bytes [b0, b1, b2, b3, b4, b5, b6, b7] seed =
      specAvalanche (specBlockStep (specBlockStep seed
          (b0 + b1 * 2 ^ 8 + b2 * 2 ^ 16 + b3 * 2 ^ 24))
        (b4 + b5 * 2 ^ 8 + b6 * 2 ^ 16 + b7 * 2 ^ 24) ^^^ 8) := rfl

theorem murmur3_eq_spec_on8 (b0 b1 b2 b3 b4 b5 b6 b7 seed : Nat) :
    murmur3_bytes_hash [b0, b1, b2, b3, b4, b5, b6, b7] seed =
      specMurmur3On8Bytes [b0, b1, b2, b3, b4, b5, b6, b7] seed := by
  rw [murmur3_bytes_hash_on8, specMurmur3On8Bytes_eq]
  simp only [mix_eq_specBlockStep, fmix32_eq_specAvalanche]

theorem next_eq (s n : Nat) :
    next s n = (toInt32 (xorshift_step_spec s % 2 ^ n), xorshift_step_spec s) := by
  simp only [next, xorshift_step_spec, Nat.one_shiftLeft, Nat.and_pow_two_sub_one_eq_mod]

theorem toInt32_of_lt {x : Nat} (hx : x < 2 ^ 31) : toInt32 x = (x : Int) := by
  unfold toInt32
  rw [if_pos hx]

theorem next_fst_bounds (s n : Nat) (hn : n ≤ 31) :
    0 ≤ (next s n).1 ∧ (next s n).1 < 2 ^ n := by
  have hmod : xorshift_step_spec s % 2 ^ n < 2 ^ n :=
    Nat.mod_lt _ (Nat.two_pow_pos n)
  have h31 : xorshift_step_spec s % 2 ^ n < 2 ^ 31 :=
    lt_of_lt_of_le hmod (Nat.pow_le_pow_right (by omega) hn)
  rw [next_eq, toInt32_of_lt h31]
  dsimp only
  exact ⟨Int.ofNat_nonneg _, by exact_mod_cast hmod⟩

theorem step_fst_bounds (s : Nat) : 0 ≤ (step s).1 ∧ (step s).1 < 2 ^ 53 := by
  obtain ⟨h1, h2⟩ := next_fst_bounds s 26 (by omega)
  obtain ⟨h3, h4⟩ := next_fst_bounds (next s 26).2 27 (by omega)
  have hstep : (step s).1 = (next s 26).1 * 2 ^ 27 + (next (next s 26).2 27).1 := rfl
  rw [hstep]
  constructor
  · positivity
  · nlinarith

end SparkXorShiftRandom

open SparkXorShiftRandom

/-! ## The sample resolver (`crates/sail-plan/src/resolver/query/sample.rs`) -/

namespace SampleResolver

/-- Scalar values flowing through embedded logical plans: `Int64`, `Float64`
(exact rationals, see the header) and list values produced by the sequence
function. -/
inductive Value
  | int (i : Int)
  | rat (q : ℚ)
  | arr (vs : List Value)

/-- Expressions as built by the sample resolver: column references, literals,
scalar-function invocations (identified by name), aliases, and the two
comparison operators used by the Bernoulli filters. -/
inductive SExpr
  | column (name : String)
  | litI64 (v : Int)
  | litF64 (v : ℚ)
  | scalarFn (fname : String) (args : List SExpr)
  | alias (e : SExpr) (name : String)
  | lt (a b : SExpr)
  | gtEq (a b : SExpr)

/-- The output-field name a projected expression contributes to the schema
(only columns and aliases are projected by this resolver). -/
def SExpr.outName : SExpr → String
  | .column n => n
  | .alias _ n => n
  | .litI64 _ => ""
  | .litF64 _ => ""
  | .scalarFn _ _ => ""
  | .lt _ _ => ""
  | .gtEq _ _ => ""

/-- Immutable logical plans: a resolved input (schema plus concrete rows) and
the three builder operations the sample resolver uses (`project`, `filter`,
`unnest_column`), each wrapping its input. -/
inductive Plan
  | values (schema : List String) (rows : List (List Value))
  | project (input : Plan) (exprs : List SExpr)
  | filter (input : Plan) (pred : SExpr)
  | unnest (input : Plan) (col : String)

/-- `plan.schema().columns()`: the ordered output column names. -/
def Plan.schema : Plan → List String
  | .values s _ => s
  | .project _ es => es.map SExpr.outName
  | .filter p _ => p.schema
  | .unnest p _ => p.schema

/-- Modelled from the spec: `SparkSequence` (external scalar function, not in
the excerpt).  `sequence(start, stop)` produces the integer sequence from
`start` of length `stop - start + 1` — for `sequence(1, n)` a sequence of
length `n`, empty when `n ≤ 0` ("zero-length sequence ⇒ row is dropped
entirely"). -/
def sparkSequence (start stop : Int) : List Value :=
  (List.range (stop - start + 1).toNat).map fun i : Nat => Value.int (start + (i : Int))

/-- Evaluation of a deterministic expression on one row (`none` on a typing
error or on the non-deterministic random functions, which have no
resolve-time value). -/
def evalExpr (schema : List String) (row : List Value) : SExpr → Option Value
  | .column n => (schema.zip row).lookup n
  | .litI64 v => some (.int v)
  | .litF64 v => some (.rat v)
  | .alias e _ => evalExpr schema row e
  | .scalarFn fname args =>
    if fname = "spark_sequence" then
      match args with
      | [a, b] =>
        match evalExpr schema row a, evalExpr schema row b with
        | some (.int x), some (.int y) => some (.arr (sparkSequence x y))
        | _, _ => none
      | _ => none
    else none
  | .lt _ _ => none
  | .gtEq _ _ => none

/-- Evaluation of a filter predicate on one row. -/
def evalPred (schema : List String) (row : List Value) : SExpr → Option Bool
  | .lt a b =>
    match evalExpr schema row a, evalExpr schema row b with
    | some (.rat x), some (.rat y) => some (decide (x < y))
    | _, _ => none
  | .gtEq a b =>
    match evalExpr schema row a, evalExpr schema row b with
    | some (.rat x), some (.rat y) => some (decide (y ≤ x))
    | _, _ => none
  | _ => none

/-- Projection of one row through a list of expressions. -/
def projRow (schema : List String) (row : List Value) : List SExpr → Option (List Value)
  | [] => some []
  | e :: es =>
    match evalExpr schema row e, projRow schema row es with
    | some v, some vs => some (v :: vs)
    | _, _ => none

/-- Projection of every row. -/
def projRows (schema : List String) (es : List SExpr) : List (List Value) →
    Option (List (List Value))
  | [] => some []
  | r :: rs =>
    match projRow schema r es, projRows schema es rs with
    | some v, some rest => some (v :: rest)
    | _, _ => none

/-- Filtering of rows by a predicate. -/
def filterRows (schema : List String) (pred : SExpr) : List (List Value) →
    Option (List (List Value))
  | [] => some []
  | r :: rs =>
    match evalPred schema r pred, filterRows schema pred rs with
    | some b, some rest => some (if b then r :: rest else rest)
    | _, _ => none

/-- Modelled from the spec: the `unnest` relational operation (external plan
builder, not in the excerpt) "turns one row containing a multi-valued
(sequence) column into multiple rows, one per element, replicating the other
column values"; an empty sequence produces no rows. -/
def unnestRows (idx : Nat) : List (List Value) → Option (List (List Value))
  | [] => some []
  | r :: rs =>
    match r.get? idx, unnestRows idx rs with
    | some (.arr vs), some rest => some (vs.map (fun v => r.set idx v) ++ rest)
    | _, _ => none

/-- Evaluation of a plan to its list of output rows. -/
def evalPlan : Plan → Option (List (List Value))
  | .values _ rows => some rows
  | .project p es => (evalPlan p).bind fun rows => projRows p.schema es rows
  | .filter p pred => (evalPlan p).bind fun rows => filterRows p.schema pred rows
  | .unnest p c => (evalPlan p).bind fun rows => unnestRows (p.schema.indexOf c) rows

/-- `spec::Sample` (the fields the resolver destructures): the input sub-plan,
fractional bounds, the replacement flag and the optional seed.  The input is
embedded as an (unresolved) plan handed to the external recursive resolver. -/
structure Sample where
  input : Plan
  lower_bound : ℚ
  upper_bound : ℚ
  with_replacement : Bool
  seed : Option Int

/-- `PlanResolverState`, restricted to what this resolver touches, plus two
effect counters that record interactions with external collaborators (how
often the process-level random source was consulted and how often the
recursive resolver ran). -/
structure PlanResolverState where
  nextId : Nat
  osDraws : Nat
  inputResolutions : Nat

/-- Modelled from the spec: `PlanResolverState::register_field_name` (external
name registrar, not in the excerpt) returns a fresh, globally unique name for
the hint and advances the registrar. -/
def register_field_name (st : PlanResolverState) (hint : String) :
    String × PlanResolverState :=
  ("#" ++ toString st.nextId ++ "_" ++ hint, { st with nextId := st.nextId + 1 })

/-- Modelled from the spec: the external recursive resolution entrypoint
(`resolve_query_plan_with_hidden_fields`, not in the excerpt) resolves the
input sub-plan; embedded as returning the already-resolved plan while
recording that one recursive resolution happened. -/
def resolve_query_plan_with_hidden_fields (p : Plan) (st : PlanResolverState) :
    Plan × PlanResolverState :=
  (p, { st with inputResolutions := st.inputResolutions + 1 })

/-- `resolve_sample_without_replacement`: filter `rand < upper`, then filter
`rand >= lower`, then project the original columns. -/
def resolve_sample_without_replacement (plan_with_rand : Plan) (rand_column_name : String)
    (lower_bound upper_bound : ℚ) (init_exprs : List SExpr) : Except String Plan :=
  let plan := Plan.filter plan_with_rand
    (SExpr.lt (SExpr.column rand_column_name) (SExpr.litF64 upper_bound))
  let plan := Plan.filter plan
    (SExpr.gtEq (SExpr.column rand_column_name) (SExpr.litF64 lower_bound))
  let plan := Plan.project plan init_exprs
  Except.ok plan

/-- `resolve_sample_with_replacement`: project all current columns plus
`sequence(1, rand_value)` aliased to a fresh array column, unnest that column,
then project the original columns. -/
def resolve_sample_with_replacement (plan_with_rand : Plan) (rand_column_name : String)
    (init_exprs : List SExpr) (st : PlanResolverState) :
    Except String Plan × PlanResolverState :=
  let init_exprs_aux := plan_with_rand.schema.map SExpr.column
  let p := register_field_name st "array_value"
  let array_column_name := p.1
  let arr_expr := SExpr.alias (SExpr.scalarFn "spark_sequence"
    [SExpr.litI64 1, SExpr.column rand_column_name]) array_column_name
  let plan := Plan.project plan_with_rand (init_exprs_aux ++ [arr_expr])
  let plan := Plan.unnest plan array_column_name
  let plan := Plan.project plan init_exprs
  (Except.ok plan, p.2)

/-- `resolve_query_sample`: validate the bounds, resolve the seed (drawing
`osDraw` from the process-level random source only when no seed was
supplied), resolve the input, project it together with the aliased random
expression, and branch on the replacement flag. -/
def resolve_query_sample (osDraw : Int) (sample : Sample) (st : PlanResolverState) :
    Except String Plan × PlanResolverState :=
  if sample.lower_bound ≥ sample.upper_bound then
    (Except.error ("invalid sample bounds: [" ++ toString sample.lower_bound ++ ", " ++
      toString sample.upper_bound ++ ")"), st)
  else
    let ps :=
      match sample.seed with
      | some s => (s, st)
      | none => (osDraw, { st with osDraws := st.osDraws + 1 })
    let seed := ps.1
    let pi := resolve_query_plan_with_hidden_fields sample.input ps.2
    let input := pi.1
    let pr := register_field_name pi.2 "rand_value"
    let rand_column_name := pr.1
    let rand_expr :=
      if sample.with_replacement then
        SExpr.alias (SExpr.scalarFn "rand_poisson"
          [SExpr.litF64 sample.upper_bound, SExpr.litI64 seed]) rand_column_name
      else
        SExpr.alias (SExpr.scalarFn "random" [SExpr.litI64 seed]) rand_column_name
    let init_exprs := input.schema.map SExpr.column
    let all_exprs := init_exprs ++ [rand_expr]
    let plan_with_rand := Plan.project input all_exprs
    if sample.with_replacement then
      resolve_sample_with_replacement plan_with_rand rand_column_name init_exprs pr.2
    else
      (resolve_sample_without_replacement plan_with_rand rand_column_name
        sample.lower_bound sample.upper_bound init_exprs, pr.2)

/-- The seed literals embedded as arguments of the random scalar functions of
an expression (the resolver only ever passes the seed to `random` and
`rand_poisson`; the other functions it builds take no seed). -/
def SExpr.seedLits : SExpr → List Int
  | .scalarFn "random" [.litI64 v] => [v]
  | .scalarFn "rand_poisson" [_, .litI64 v] => [v]
  | .alias e _ => e.seedLits
  | .lt a b => a.seedLits ++ b.seedLits
  | .gtEq a b => a.seedLits ++ b.seedLits
  | _ => []

/-- The seed literals embedded in the random scalar functions of a plan. -/
def Plan.seedLits : Plan → List Int
  | .values _ _ => []
  | .project p es => p.seedLits ++ es.flatMap SExpr.seedLits
  | .filter p e => p.seedLits ++ e.seedLits
  | .unnest p _ => p.seedLits

/-- The rational at position `i` of a row (the Bernoulli random column). -/
def ratAt (r : List Value) (i : Nat) : ℚ :=
  match r.get? i with
  | some (.rat q) => q
  | _ => 0

/-- The integer at position `i` of a row (the Poisson count column). -/
def intAt (r : List Value) (i : Nat) : Int :=
  match r.get? i with
  | some (.int k) => k
  | _ => 0

/-! ### Helper lemmas about evaluation -/

theorem seedLits_map_column (l : List String) :
    (l.map SExpr.column).flatMap SExpr.seedLits = [] := by
  induction l with
  | nil => rfl
  | cons c cs ih => simp [SExpr.seedLits, ih]

theorem outName_map_column (l : List String) :
    (l.map SExpr.column).map SExpr.outName = l := by
  induction l with
  | nil => rfl
  | cons c cs ih => simp [SExpr.outName, ih]

theorem outName_comp_column (l : List String) :
    List.map (SExpr.outName ∘ SExpr.column) l = l := by
  induction l with
  | nil => rfl
  | cons c cs ih => simp [SExpr.outName, ih]

theorem lookup_cons_self {β : Type} (n : String) (v : β) (X : List (String × β)) :
    ((n, v) :: X).lookup n = some v := by
  simp [List.lookup]

theorem lookup_cons_ne {β : Type} {n k : String} (hne : n ≠ k) (b : β)
    (X : List (String × β)) : ((k, b) :: X).lookup n = X.lookup n := by
  simp only [List.lookup]
  rw [beq_eq_false_iff_ne.mpr hne]

theorem lookup_skip {β : Type} (ps : List (String × β)) (n : String) (v : β)
    (X : List (String × β)) (h : ∀ p ∈ ps, n ≠ p.1) :
    (ps ++ (n, v) :: X).lookup n = some v := by
  induction ps with
  | nil => simp [lookup_cons_self]
  | cons p ps ih =>
    obtain ⟨k, b⟩ := p
    rw [List.cons_append, lookup_cons_ne (h (k, b) (List.mem_cons_self _ _)) b]
    exact ih fun q hq => h q (List.mem_cons_of_mem _ hq)

theorem forall₂_lookup_cons {p : String × Value} {X : List (String × Value)}
    {cs : List String} {vs : List Value}
    (h : List.Forall₂ (fun c' v' => X.lookup c' = some v') cs vs) :
    (∀ c' ∈ cs, c' ≠ p.1) →
    List.Forall₂ (fun c' v' => (p :: X).lookup c' = some v') cs vs := by
  obtain ⟨k, b⟩ := p
  induction h with
  | nil => intro _; exact List.Forall₂.nil
  | cons h1 _ ih =>
    intro hne
    refine List.Forall₂.cons ?_ (ih fun c hc => hne c (List.mem_cons_of_mem _ hc))
    rw [lookup_cons_ne (hne _ (List.mem_cons_self _ _)) b]
    exact h1

theorem forall₂_lookup (cols : List String) (r : List Value) (Q : List (String × Value))
    (hnodup : cols.Nodup) (hlen : r.length = cols.length)
    (hdisj : ∀ c ∈ cols, ∀ q ∈ Q, c ≠ q.1) :
    List.Forall₂ (fun c v => (cols.zip r ++ Q).lookup c = some v) cols r := by
  induction cols generalizing r Q with
  | nil =>
    cases r with
    | nil => exact List.Forall₂.nil
    | cons _ _ => simp at hlen
  | cons c cs ih =>
    cases r with
    | nil => simp at hlen
    | cons v vs =>
      rw [List.zip_cons_cons, List.cons_append]
      refine List.Forall₂.cons (lookup_cons_self c v _) ?_
      have hcs : List.Forall₂ (fun c' v' => (cs.zip vs ++ Q).lookup c' = some v') cs vs := by
        refine ih vs Q (List.nodup_cons.mp hnodup).2 (by simpa using hlen) ?_
        exact fun c' hc' q hq => hdisj c' (List.mem_cons_of_mem _ hc') q hq
      refine forall₂_lookup_cons hcs fun c' hc' hcc => ?_
      have hcc' : c' = c := hcc
      exact (List.nodup_cons.mp hnodup).1 (hcc' ▸ hc')

theorem projRow_columns (S : List String) (R : List Value) {cols : List String}
    {r : List Value}
    (h : List.Forall₂ (fun c v => (S.zip R).lookup c = some v) cols r) :
    projRow S R (cols.map SExpr.column) = some r := by
  induction h with
  | nil => rfl
  | cons h1 _ ih => simp [projRow, evalExpr, h1, ih]

theorem projRow_cols (cols tailS : List String) (r tailV : List Value)
    (hnodup : cols.Nodup) (hlen : r.length = cols.length)
    (hdisj : ∀ c ∈ cols, c ∉ tailS) :
    projRow (cols ++ tailS) (r ++ tailV) (cols.map SExpr.column) = some r := by
  apply projRow_columns
  rw [List.zip_append (by omega)]
  refine forall₂_lookup cols r _ hnodup hlen fun c hc q hq => ?_
  intro hcq
  exact hdisj c hc (hcq ▸ (List.of_mem_zip hq).1)

theorem ratAt_concat (r0 : List Value) (q : ℚ) :
    ratAt (r0 ++ [Value.rat q]) r0.length = q := by
  simp [ratAt, List.get?_concat_length]

theorem intAt_concat (r0 : List Value) (k : Int) :
    intAt (r0 ++ [Value.int k]) r0.length = k := by
  simp [intAt, List.get?_concat_length]

theorem lookup_rand (cols : List String) (r0 : List Value) (rn : String) (v : Value)
    (hfresh : rn ∉ cols) (hlen : r0.length = cols.length) :
    ((cols ++ [rn]).zip (r0 ++ [v])).lookup rn = some v := by
  rw [List.zip_append (by omega)]
  exact lookup_skip _ _ _ _ fun p hp hrp => hfresh (hrp ▸ (List.of_mem_zip hp).1)

theorem filterRows_of_eval {S : List String} {pred : SExpr} {P : List Value → Bool} :
    ∀ {rows : List (List Value)}, (∀ r ∈ rows, evalPred S r pred = some (P r)) →
      filterRows S pred rows = some (rows.filter P)
  | [], _ => rfl
  | r :: rs, h => by
    rw [filterRows, h r (List.mem_cons_self _ _),
      filterRows_of_eval fun r' hr' => h r' (List.mem_cons_of_mem _ hr')]
    by_cases hP : P r
    · simp [hP]
    · simp [hP]

theorem projRows_of_eval {S : List String} {es : List SExpr} {g : List Value → List Value} :
    ∀ {rows : List (List Value)}, (∀ r ∈ rows, projRow S r es = some (g r)) →
      projRows S es rows = some (rows.map g)
  | [], _ => rfl
  | r :: rs, h => by
    rw [projRows, h r (List.mem_cons_self _ _),
      projRows_of_eval fun r' hr' => h r' (List.mem_cons_of_mem _ hr'), List.map_cons]

theorem unnestRows_of_eval {idx : Nat} {F : List Value → List Value} :
    ∀ {rows : List (List Value)}, (∀ r ∈ rows, r.get? idx = some (Value.arr (F r))) →
      unnestRows idx rows = some (rows.flatMap fun r => (F r).map fun v => r.set idx v)
  | [], _ => rfl
  | r :: rs, h => by
    rw [unnestRows, h r (List.mem_cons_self _ _),
      unnestRows_of_eval fun r' hr' => h r' (List.mem_cons_of_mem _ hr'), List.flatMap_cons]

theorem projRow_append (S : List String) (R : List Value) (es1 es2 : List SExpr)
    (v1 v2 : List Value) (h1 : projRow S R es1 = some v1) (h2 : projRow S R es2 = some v2) :
    projRow S R (es1 ++ es2) = some (v1 ++ v2) := by
  induction es1 generalizing v1 with
  | nil =>
    simp only [projRow] at h1
    injection h1 with h1
    subst h1
    simpa using h2
  | cons e es ih =>
    simp only [projRow] at h1
    cases he : evalExpr S R e with
    | none => rw [he] at h1; exact absurd h1 (by simp)
    | some v =>
      cases hes : projRow S R es with
      | none => rw [he, hes] at h1; exact absurd h1 (by simp)
      | some vs =>
        rw [he, hes] at h1
        injection h1 with h1
        subst h1
        show (match evalExpr S R e, projRow S R (es ++ es2) with
          | some v, some vs => some (v :: vs)
          | _, _ => none) = some ((v :: vs) ++ v2)
        rw [he, ih vs hes]
        rfl

theorem set_concat (l : List α) (a v : α) : (l ++ [a]).set l.length v = l ++ [v] := by
  rw [List.set_append_right _ _ (Nat.le_refl _), Nat.sub_self]
  rfl

theorem sparkSequence_one_length (k : Int) : (sparkSequence 1 k).length = k.toNat := by
  rw [sparkSequence, List.length_map, List.length_range]
  norm_num

theorem flatMap_congr {α β : Type} {l : List α} {f g : α → List β}
    (h : ∀ a ∈ l, f a = g a) : l.flatMap f = l.flatMap g := by
  induction l with
  | nil => rfl
  | cons a l ih =>
    rw [List.flatMap_cons, List.flatMap_cons, h a (List.mem_cons_self _ _),
      ih fun b hb => h b (List.mem_cons_of_mem _ hb)]

end SampleResolver

/-! ## Claim theorems for the generator -/

set_option maxRecDepth 8000 in
/-- C1: a generator constructed with seed 1 yields, as its first five
`next_double()` values, the five reference doubles for seed 1 within `1e-15`
absolute error, and a generator constructed with seed 24 likewise matches the
five reference doubles for seed 24. -/
theorem generator_reference_fidelity :
    List.Forall₂ withinTol (doublesFrom (new 1) 5) SPARK_XORSHIFT_SEED_1 ∧
    List.Forall₂ withinTol (doublesFrom (new 24) 5) SPARK_XORSHIFT_SEED_24 := by
  have hs1 : new 1 = 18244189140264552972 := by decide
  have hs24 : new 24 = 606193478584323246 := by decide
  have h1 : numsFrom 18244189140264552972 5 =
      [5731990306545256, 5398777003427365, 1214555157132188, 692127954025751,
       7691437596187967] := by decide
  have h24 : numsFrom 606193478584323246 5 =
      [3551768707268625, 4379293466585826, 2633661503768253, 3002578391358362,
       3586612471128795] := by decide
  rw [doublesFrom_eq_numsFrom, doublesFrom_eq_numsFrom, hs1, hs24, h1, h24]
  unfold SPARK_XORSHIFT_SEED_1 SPARK_XORSHIFT_SEED_24
  simp only [List.map_cons, List.map_nil, List.forall₂_cons, List.Forall₂.nil,
    withinTol, abs_sub_lt_iff]
  norm_num

/-- C2: for every `i64` seed, `hash_seed` computes exactly the double murmur3
combination described by the claim: big-endian seed bytes hashed with seed
constant `0x3c074a61`, hashed again seeded with the first result, combined as
`(secondHash << 32) | (firstHash & 0xFFFFFFFF)`. -/
theorem hash_seed_matches_spec (x : Int) :
    hash_seed (i64pat x) = hash_seed_spec (i64pat x) := by
  simp only [hash_seed, hash_seed_spec, to_be_bytes, array_seed, murmur3_eq_spec_on8]

/-- C3: for every state and every `n ≤ 32`, `next` updates the state by
exactly the three xorshift operations of the claim's formula and returns the
low `n` bits of the new state reinterpreted as an `i32`; the new state is the
one the next call starts from. -/
theorem next_matches_xorshift_spec (s n : Nat) (_hn : n ≤ 32) :
    next s n = (toInt32 (xorshift_step_spec s % 2 ^ n), xorshift_step_spec s) :=
  next_eq s n

set_option maxRecDepth 8000 in
/-- Witness for C3 at `s = 123`, `n = 32`. -/
theorem next_matches_xorshift_spec_witness :
    next 123 32 = (toInt32 (xorshift_step_spec 123 % 2 ^ 32), xorshift_step_spec 123) :=
  next_matches_xorshift_spec 123 32 (by decide)

/-- C8: for every state, `next_double` draws 26 bits and then 27 bits from
`next`, combines them as `(next(26) << 27) + next(27)`, divides exactly by
`2^53`, threads the state of the second call, and the value lies in `[0, 1)`. -/
theorem next_double_structure (s : Nat) :
    next_double s =
      ((((next s 26).1 * 2 ^ 27 + (next (next s 26).2 27).1 : Int) : ℚ) / 2 ^ 53,
        (next (next s 26).2 27).2) ∧
    0 ≤ (next_double s).1 ∧ (next_double s).1 < 1 := by
  obtain ⟨hlo, hhi⟩ := step_fst_bounds s
  refine ⟨rfl, ?_, ?_⟩
  · rw [next_double_eq_step]
    positivity
  · rw [next_double_eq_step]
    rw [div_lt_one (by positivity)]
    calc ((step s).1 : ℚ) < ((2 ^ 53 : Int) : ℚ) := by exact_mod_cast hhi
    _ = 2 ^ 53 := by norm_num

/-- C10: `next(26)` lies in `[0, 2^26)` and `next(27)` in `[0, 2^27)`, so the
combination `(next(26) << 27) + next(27)` lies in `[0, 2^53)` and within the
signed 64-bit range: no overflow, and the arithmetic in `next_double` is
exact. -/
theorem next_double_combination_no_overflow (s : Nat) :
    0 ≤ (next s 26).1 ∧ (next s 26).1 < 2 ^ 26 ∧
    0 ≤ (next (next s 26).2 27).1 ∧ (next (next s 26).2 27).1 < 2 ^ 27 ∧
    0 ≤ (next s 26).1 * 2 ^ 27 + (next (next s 26).2 27).1 ∧
    (next s 26).1 * 2 ^ 27 + (next (next s 26).2 27).1 < 2 ^ 53 ∧
    -(2 ^ 63) ≤ (next s 26).1 * 2 ^ 27 + (next (next s 26).2 27).1 ∧
    (next s 26).1 * 2 ^ 27 + (next (next s 26).2 27).1 < 2 ^ 63 := by
  obtain ⟨h1, h2⟩ := next_fst_bounds s 26 (by omega)
  obtain ⟨h3, h4⟩ := next_fst_bounds (next s 26).2 27 (by omega)
  obtain ⟨h5, h6⟩ := step_fst_bounds s
  unfold step at h5 h6
  refine ⟨h1, h2, h3, h4, h5, h6, by nlinarith, by nlinarith⟩

/-! ## Claim theorems for the sample resolver -/

open SampleResolver

/-- C4: `resolve_query_sample` fails with the invalid-bounds error precisely
when `lower_bound >= upper_bound`; the error message carries both bound
values; the failure happens before seed resolution, recursive input
resolution, or any plan rewriting (the resolver state is returned untouched
and no plan is built); and whenever `lower_bound < upper_bound` resolution
returns a plan and never fails. -/
theorem bounds_validation (osDraw : Int) (sample : Sample) (st : PlanResolverState) :
    (sample.lower_bound ≥ sample.upper_bound →
      resolve_query_sample osDraw sample st =
        (Except.error ("invalid sample bounds: [" ++ toString sample.lower_bound ++ ", " ++
          toString sample.upper_bound ++ ")"), st)) ∧
    (sample.lower_bound < sample.upper_bound →
      ∃ p, (resolve_query_sample osDraw sample st).1 = Except.ok p) := by
  constructor
  · intro h
    unfold resolve_query_sample
    rw [if_pos h]
  · intro h
    unfold resolve_query_sample
    rw [if_neg (not_le.mpr h)]
    cases hw : sample.with_replacement
    · exact ⟨_, rfl⟩
    · exact ⟨_, rfl⟩

/-- Witness for C4: a concrete spec with `lower_bound = 1 ≥ 0 = upper_bound`
is rejected with the bounds message and an untouched state. -/
theorem bounds_validation_witness :
    resolve_query_sample 0
        { input := Plan.values [] [], lower_bound := 1, upper_bound := 0,
          with_replacement := false, seed := some 7 }
        { nextId := 0, osDraws := 0, inputResolutions := 0 } =
      (Except.error ("invalid sample bounds: [" ++ toString (1 : ℚ) ++ ", " ++
          toString (0 : ℚ) ++ ")"),
        { nextId := 0, osDraws := 0, inputResolutions := 0 }) :=
  (bounds_validation 0 _ _).1 (by norm_num)

/-- C6: for every successfully resolved sample spec (valid bounds), on both
the with-replacement and without-replacement branches, the output plan's
column names and order equal the resolved input plan's, and any name outside
the input schema — in particular every registrar-issued name such as the
`rand_value` and `array_value` columns, which the registrar guarantees fresh —
is absent from the output schema. -/
theorem schema_preservation (osDraw : Int) (sample : Sample) (st : PlanResolverState)
    (h : sample.lower_bound < sample.upper_bound) :
    ∃ p, (resolve_query_sample osDraw sample st).1 = Except.ok p ∧
      p.schema = sample.input.schema ∧
      ∀ name, name ∉ sample.input.schema → name ∉ p.schema := by
  unfold resolve_query_sample
  rw [if_neg (not_le.mpr h)]
  cases hw : sample.with_replacement
  · refine ⟨_, rfl, ?_, ?_⟩
    · simp [Plan.schema, resolve_sample_without_replacement,
        resolve_query_plan_with_hidden_fields, outName_map_column, outName_comp_column]
    · intro name hn
      simp only [Plan.schema, resolve_sample_without_replacement,
        resolve_query_plan_with_hidden_fields, outName_map_column, List.map_map,
        outName_comp_column]
      exact hn
  · refine ⟨_, rfl, ?_, ?_⟩
    · simp [Plan.schema, resolve_sample_with_replacement, register_field_name,
        resolve_query_plan_with_hidden_fields, outName_map_column, outName_comp_column]
    · intro name hn
      simp only [Plan.schema, resolve_sample_with_replacement, register_field_name,
        resolve_query_plan_with_hidden_fields, outName_map_column, List.map_map,
        outName_comp_column]
      exact hn

/-- Witness for C6: a concrete one-column spec with bounds `[0, 1)` resolves
to a plan whose schema is again `["a"]`. -/
theorem schema_preservation_witness :
    ∃ p, (resolve_query_sample 0
        { input := Plan.values ["a"] [], lower_bound := 0, upper_bound := 1,
          with_replacement := true, seed := some 5 }
        { nextId := 0, osDraws := 0, inputResolutions := 0 }).1 = Except.ok p ∧
      p.schema = ["a"] ∧ ∀ name, name ∉ ["a"] → name ∉ p.schema :=
  schema_preservation 0 _ _ (by norm_num)

/-- C9: with an explicitly supplied seed the resolution is a deterministic
function of the spec and state — the process-level random draw parameter is
irrelevant (two runs produce structurally equal plans), the process random
source is never consulted (`osDraws` unchanged), and any produced plan embeds
exactly the supplied seed as the seed literal of its random scalar function
(beyond whatever the input sub-plan already contained). -/
theorem explicit_seed_determinism (sample : Sample) (s : Int) (st : PlanResolverState)
    (hseed : sample.seed = some s) :
    (∀ os1 os2 : Int,
      resolve_query_sample os1 sample st = resolve_query_sample os2 sample st) ∧
    (resolve_query_sample 0 sample st).2.osDraws = st.osDraws ∧
    ∀ p, (resolve_query_sample 0 sample st).1 = Except.ok p →
      p.seedLits = sample.input.seedLits ++ [s] := by
  refine ⟨?_, ?_, ?_⟩
  · intro os1 os2
    unfold resolve_query_sample
    rw [hseed]
  · unfold resolve_query_sample
    rw [hseed]
    by_cases hb : sample.lower_bound ≥ sample.upper_bound
    · rw [if_pos hb]
    · rw [if_neg hb]
      cases hw : sample.with_replacement
      · rfl
      · rfl
  · intro p hp
    unfold resolve_query_sample at hp
    rw [hseed] at hp
    by_cases hb : sample.lower_bound ≥ sample.upper_bound
    · rw [if_pos hb] at hp
      exact absurd hp (by simp)
    · rw [if_neg hb] at hp
      cases hw : sample.with_replacement <;> rw [hw] at hp
      · simp only [resolve_sample_without_replacement, if_neg, Bool.false_eq_true,
          if_false, resolve_query_plan_with_hidden_fields] at hp
        obtain rfl := Except.ok.inj hp.symm
        simp [Plan.seedLits, SExpr.seedLits, seedLits_map_column,
          resolve_query_plan_with_hidden_fields]
      · simp only [resolve_sample_with_replacement, if_pos,
          resolve_query_plan_with_hidden_fields, register_field_name] at hp
        obtain rfl := Except.ok.inj hp.symm
        simp [Plan.seedLits, SExpr.seedLits, seedLits_map_column,
          resolve_query_plan_with_hidden_fields, register_field_name]

/-- Witness for C9 with seed 42: the resolved plan is independent of the
process-random parameter (3 vs 7) and the random source is not consulted. -/
theorem explicit_seed_determinism_witness :
    resolve_query_sample 3
        { input := Plan.values ["a"] [], lower_bound := 0, upper_bound := 1,
          with_replacement := false, seed := some 42 }
        { nextId := 0, osDraws := 0, inputResolutions := 0 } =
      resolve_query_sample 7
        { input := Plan.values ["a"] [], lower_bound := 0, upper_bound := 1,
          with_replacement := false, seed := some 42 }
        { nextId := 0, osDraws := 0, inputResolutions := 0 } ∧
    (resolve_query_sample 0
        { input := Plan.values ["a"] [], lower_bound := 0, upper_bound := 1,
          with_replacement := false, seed := some 42 }
        { nextId := 0, osDraws := 0, inputResolutions := 0 }).2.osDraws = 0 :=
  ⟨(explicit_seed_determinism _ 42 _ rfl).1 3 7,
    (explicit_seed_determinism _ 42 _ rfl).2.1⟩

/-- C7: on the without-replacement path the resolver wraps `plan_with_rand`
in the two filters `rand < upper` and `rand >= lower` (together the single
conjunction `rand < upper AND rand >= lower`) followed by a projection back to
the original columns: the output rows are exactly the input rows passing the
conjunction, each stripped of the random column — one output row per
surviving input row, so no row is duplicated. -/
theorem without_replacement_keeps_exactly (cols : List String) (randName : String)
    (rows : List (List Value)) (lb ub : ℚ)
    (hnodup : cols.Nodup) (hfresh : randName ∉ cols)
    (hshape : ∀ r ∈ rows, ∃ r0 q, r = r0 ++ [Value.rat q] ∧ r0.length = cols.length) :
    resolve_sample_without_replacement (Plan.values (cols ++ [randName]) rows) randName
        lb ub (cols.map SExpr.column) =
      Except.ok (Plan.project (Plan.filter (Plan.filter
        (Plan.values (cols ++ [randName]) rows)
        (SExpr.lt (SExpr.column randName) (SExpr.litF64 ub)))
        (SExpr.gtEq (SExpr.column randName) (SExpr.litF64 lb)))
        (cols.map SExpr.column)) ∧
    ∀ p, resolve_sample_without_replacement (Plan.values (cols ++ [randName]) rows) randName
        lb ub (cols.map SExpr.column) = Except.ok p →
      p.schema = cols ∧
      evalPlan p = some ((rows.filter fun r =>
          decide (ratAt r cols.length < ub) && decide (lb ≤ ratAt r cols.length)).map
        fun r => r.take cols.length) := by
  constructor
  · rfl
  · intro p hp
    simp only [resolve_sample_without_replacement] at hp
    obtain rfl := Except.ok.inj hp
    refine ⟨by simp [Plan.schema, outName_map_column, List.map_map, outName_comp_column], ?_⟩
    have hP1 : ∀ r ∈ rows,
        evalPred (cols ++ [randName]) r
          (SExpr.lt (SExpr.column randName) (SExpr.litF64 ub)) =
        some (decide (ratAt r cols.length < ub)) := by
      intro r hr
      obtain ⟨r0, q, rfl, hl⟩ := hshape r hr
      rw [show cols.length = r0.length from hl.symm]
      simp [evalPred, evalExpr, lookup_rand cols r0 randName _ hfresh hl, ratAt_concat]
    have hP2 : ∀ r ∈ rows,
        evalPred (cols ++ [randName]) r
          (SExpr.gtEq (SExpr.column randName) (SExpr.litF64 lb)) =
        some (decide (lb ≤ ratAt r cols.length)) := by
      intro r hr
      obtain ⟨r0, q, rfl, hl⟩ := hshape r hr
      rw [show cols.length = r0.length from hl.symm]
      simp [evalPred, evalExpr, lookup_rand cols r0 randName _ hfresh hl, ratAt_concat]
    have e1 : evalPlan (Plan.filter (Plan.values (cols ++ [randName]) rows)
        (SExpr.lt (SExpr.column randName) (SExpr.litF64 ub))) =
        some (rows.filter fun r => decide (ratAt r cols.length < ub)) := by
      rw [show evalPlan (Plan.filter (Plan.values (cols ++ [randName]) rows)
          (SExpr.lt (SExpr.column randName) (SExpr.litF64 ub))) =
        filterRows (cols ++ [randName])
          (SExpr.lt (SExpr.column randName) (SExpr.litF64 ub)) rows from rfl]
      exact filterRows_of_eval hP1
    have e2 : evalPlan (Plan.filter (Plan.filter (Plan.values (cols ++ [randName]) rows)
        (SExpr.lt (SExpr.column randName) (SExpr.litF64 ub)))
        (SExpr.gtEq (SExpr.column randName) (SExpr.litF64 lb))) =
        some ((rows.filter fun r => decide (ratAt r cols.length < ub)).filter
          fun r => decide (lb ≤ ratAt r cols.length)) := by
      rw [show evalPlan (Plan.filter (Plan.filter (Plan.values (cols ++ [randName]) rows)
          (SExpr.lt (SExpr.column randName) (SExpr.litF64 ub)))
          (SExpr.gtEq (SExpr.column randName) (SExpr.litF64 lb))) =
        (evalPlan (Plan.filter (Plan.values (cols ++ [randName]) rows)
          (SExpr.lt (SExpr.column randName) (SExpr.litF64 ub)))).bind
          (fun rs => filterRows (cols ++ [randName])
            (SExpr.gtEq (SExpr.column randName) (SExpr.litF64 lb)) rs) from rfl, e1]
      exact filterRows_of_eval fun r hr => hP2 r (List.mem_of_mem_filter hr)
    rw [show evalPlan (Plan.project (Plan.filter (Plan.filter
        (Plan.values (cols ++ [randName]) rows)
        (SExpr.lt (SExpr.column randName) (SExpr.litF64 ub)))
        (SExpr.gtEq (SExpr.column randName) (SExpr.litF64 lb)))
        (cols.map SExpr.column)) =
      (evalPlan (Plan.filter (Plan.filter (Plan.values (cols ++ [randName]) rows)
        (SExpr.lt (SExpr.column randName) (SExpr.litF64 ub)))
        (SExpr.gtEq (SExpr.column randName) (SExpr.litF64 lb)))).bind
        (fun rs => projRows (cols ++ [randName]) (cols.map SExpr.column) rs) from rfl, e2]
    have e3 : projRows (cols ++ [randName]) (cols.map SExpr.column)
        ((rows.filter fun r => decide (ratAt r cols.length < ub)).filter
          fun r => decide (lb ≤ ratAt r cols.length)) =
        some (((rows.filter fun r => decide (ratAt r cols.length < ub)).filter
          (fun r => decide (lb ≤ ratAt r cols.length))).map fun r => r.take cols.length) := by
      refine projRows_of_eval fun r hr => ?_
      have hr' : r ∈ rows :=
        List.mem_of_mem_filter (List.mem_of_mem_filter hr)
      obtain ⟨r0, q, rfl, hl⟩ := hshape r hr'
      have ht : (r0 ++ [Value.rat q]).take cols.length = r0 := by
        rw [← hl]
        exact List.take_left _ _
      rw [ht]
      exact projRow_cols cols [randName] r0 [Value.rat q] hnodup hl
        fun c hc hmem => hfresh (List.mem_singleton.mp hmem ▸ hc)
    rw [show ((some ((rows.filter fun r => decide (ratAt r cols.length < ub)).filter
        fun r => decide (lb ≤ ratAt r cols.length)) :
          Option (List (List Value))).bind
        fun rs => projRows (cols ++ [randName]) (cols.map SExpr.column) rs) =
      projRows (cols ++ [randName]) (cols.map SExpr.column)
        ((rows.filter fun r => decide (ratAt r cols.length < ub)).filter
          fun r => decide (lb ≤ ratAt r cols.length)) from rfl, e3]
    rw [List.filter_filter]
    congr 1
    refine congrArg _ (List.filter_congr fun r _ => ?_)
    exact Bool.and_comm _ _

/-- Witness for C7: one row `[int 5 | rat 1/2]` with bounds `[0, 1)` survives
the two filters and is projected back to its original single column. -/
theorem without_replacement_keeps_exactly_witness :
    (Plan.project (Plan.filter (Plan.filter
        (Plan.values (["a"] ++ ["r"]) [[Value.int 5, Value.rat (1 / 2)]])
        (SExpr.lt (SExpr.column "r") (SExpr.litF64 1)))
        (SExpr.gtEq (SExpr.column "r") (SExpr.litF64 0)))
        (["a"].map SExpr.column)).schema = ["a"] ∧
    evalPlan (Plan.project (Plan.filter (Plan.filter
        (Plan.values (["a"] ++ ["r"]) [[Value.int 5, Value.rat (1 / 2)]])
        (SExpr.lt (SExpr.column "r") (SExpr.litF64 1)))
        (SExpr.gtEq (SExpr.column "r") (SExpr.litF64 0)))
        (["a"].map SExpr.column)) =
      some (([[Value.int 5, Value.rat (1 / 2)]].filter fun r =>
          decide (ratAt r (["a"] : List String).length < 1) &&
          decide (0 ≤ ratAt r (["a"] : List String).length)).map
        fun r => r.take (["a"] : List String).length) :=
  (without_replacement_keeps_exactly ["a"] "r" [[Value.int 5, Value.rat (1 / 2)]] 0 1
    (by decide) (by decide)
    (by
      intro r hr
      rw [List.mem_singleton] at hr
      subst hr
      exact ⟨[Value.int 5], 1 / 2, rfl, rfl⟩)).2 _ rfl

/-- C5: on the with-replacement path the resolver projects the current
columns plus `sequence(1, rand_value)` aliased to the fresh array column,
unnests that column, and projects back to the original columns; a row whose
drawn count is `k` appears exactly `k` times in the output (its original
columns unchanged in each copy), and a row with count `k = 0` disappears. -/
theorem with_replacement_expands (cols : List String) (randName : String)
    (rows : List (List Value)) (st : PlanResolverState)
    (hnodup : (cols ++ [randName]).Nodup)
    (harr : (register_field_name st "array_value").1 ∉ cols ++ [randName])
    (hshape : ∀ r ∈ rows, ∃ r0 k, r = r0 ++ [Value.int k] ∧ r0.length = cols.length ∧ 0 ≤ k) :
    resolve_sample_with_replacement (Plan.values (cols ++ [randName]) rows) randName
        (cols.map SExpr.column) st =
      (Except.ok (Plan.project (Plan.unnest (Plan.project
          (Plan.values (cols ++ [randName]) rows)
          ((cols ++ [randName]).map SExpr.column ++
            [SExpr.alias (SExpr.scalarFn "spark_sequence"
              [SExpr.litI64 1, SExpr.column randName])
              (register_field_name st "array_value").1]))
          (register_field_name st "array_value").1)
          (cols.map SExpr.column)),
        (register_field_name st "array_value").2) ∧
    evalPlan (Plan.project (Plan.unnest (Plan.project
        (Plan.values (cols ++ [randName]) rows)
        ((cols ++ [randName]).map SExpr.column ++
          [SExpr.alias (SExpr.scalarFn "spark_sequence"
            [SExpr.litI64 1, SExpr.column randName])
            (register_field_name st "array_value").1]))
        (register_field_name st "array_value").1)
        (cols.map SExpr.column)) =
      some (rows.flatMap fun r =>
        List.replicate (intAt r cols.length).toNat (r.take cols.length)) := by
  have hnodup0 : cols.Nodup := (List.nodup_append.mp hnodup).1
  have hfreshr : randName ∉ cols := by
    intro hm
    exact List.disjoint_of_nodup_append hnodup hm (List.mem_singleton_self _)
  have harrc : (register_field_name st "array_value").1 ∉ cols :=
    fun h => harr (List.mem_append_left _ h)
  refine ⟨rfl, ?_⟩
  have e1 : evalPlan (Plan.project (Plan.values (cols ++ [randName]) rows)
      ((cols ++ [randName]).map SExpr.column ++
        [SExpr.alias (SExpr.scalarFn "spark_sequence"
          [SExpr.litI64 1, SExpr.column randName])
          (register_field_name st "array_value").1])) =
      some (rows.map fun r =>
        r ++ [Value.arr (sparkSequence 1 (intAt r cols.length))]) := by
    rw [show evalPlan (Plan.project (Plan.values (cols ++ [randName]) rows)
        ((cols ++ [randName]).map SExpr.column ++
          [SExpr.alias (SExpr.scalarFn "spark_sequence"
            [SExpr.litI64 1, SExpr.column randName])
            (register_field_name st "array_value").1])) =
      projRows (cols ++ [randName])
        ((cols ++ [randName]).map SExpr.column ++
          [SExpr.alias (SExpr.scalarFn "spark_sequence"
            [SExpr.litI64 1, SExpr.column randName])
            (register_field_name st "array_value").1]) rows from rfl]
    refine projRows_of_eval fun r hr => ?_
    obtain ⟨r0, k, rfl, hl, hk⟩ := hshape r hr
    have hA : projRow (cols ++ [randName]) (r0 ++ [Value.int k])
        ((cols ++ [randName]).map SExpr.column) = some (r0 ++ [Value.int k]) := by
      have := projRow_cols (cols ++ [randName]) [] (r0 ++ [Value.int k]) [] hnodup
        (by simp [hl]) (by simp)
      simpa using this
    have hB : projRow (cols ++ [randName]) (r0 ++ [Value.int k])
        [SExpr.alias (SExpr.scalarFn "spark_sequence"
          [SExpr.litI64 1, SExpr.column randName])
          (register_field_name st "array_value").1] =
        some [Value.arr (sparkSequence 1 k)] := by
      simp [projRow, evalExpr, lookup_rand cols r0 randName (Value.int k) hfreshr hl]
    have hint : intAt (r0 ++ [Value.int k]) cols.length = k := by
      rw [← hl]
      exact intAt_concat r0 k
    rw [hint]
    exact projRow_append _ _ _ _ _ _ hA hB
  have hS1 : ((cols ++ [randName]).map SExpr.column ++
      [SExpr.alias (SExpr.scalarFn "spark_sequence"
        [SExpr.litI64 1, SExpr.column randName])
        (register_field_name st "array_value").1]).map SExpr.outName =
      (cols ++ [randName]) ++ [(register_field_name st "array_value").1] := by
    simp [List.map_append, List.map_map, outName_comp_column, SExpr.outName]
  have hidx : (((cols ++ [randName]).map SExpr.column ++
      [SExpr.alias (SExpr.scalarFn "spark_sequence"
        [SExpr.litI64 1, SExpr.column randName])
        (register_field_name st "array_value").1]).map SExpr.outName).indexOf
      (register_field_name st "array_value").1 = cols.length + 1 := by
    rw [hS1, List.indexOf_append_of_not_mem harr, List.indexOf_cons_self]
    simp
  have e2 : evalPlan (Plan.unnest (Plan.project (Plan.values (cols ++ [randName]) rows)
      ((cols ++ [randName]).map SExpr.column ++
        [SExpr.alias (SExpr.scalarFn "spark_sequence"
          [SExpr.litI64 1, SExpr.column randName])
          (register_field_name st "array_value").1]))
      (register_field_name st "array_value").1) =
      some ((rows.map fun r =>
          r ++ [Value.arr (sparkSequence 1 (intAt r cols.length))]).flatMap fun r' =>
        (sparkSequence 1 (intAt r' cols.length)).map fun v =>
          r'.set (cols.length + 1) v) := by
    rw [show evalPlan (Plan.unnest (Plan.project (Plan.values (cols ++ [randName]) rows)
        ((cols ++ [randName]).map SExpr.column ++
          [SExpr.alias (SExpr.scalarFn "spark_sequence"
            [SExpr.litI64 1, SExpr.column randName])
            (register_field_name st "array_value").1]))
        (register_field_name st "array_value").1) =
      (evalPlan (Plan.project (Plan.values (cols ++ [randName]) rows)
        ((cols ++ [randName]).map SExpr.column ++
          [SExpr.alias (SExpr.scalarFn "spark_sequence"
            [SExpr.litI64 1, SExpr.column randName])
            (register_field_name st "array_value").1]))).bind
        (fun rs => unnestRows ((((cols ++ [randName]).map SExpr.column ++
          [SExpr.alias (SExpr.scalarFn "spark_sequence"
            [SExpr.litI64 1, SExpr.column randName])
            (register_field_name st "array_value").1]).map SExpr.outName).indexOf
          (register_field_name st "array_value").1) rs) from rfl, e1, hidx]
    refine unnestRows_of_eval fun r' hr' => ?_
    obtain ⟨r, hr, rfl⟩ := List.mem_map.mp hr'
    obtain ⟨r0, k, rfl, hl, hk⟩ := hshape r hr
    have hlen1 : (r0 ++ [Value.int k]).length = cols.length + 1 := by simp [hl]
    have hAt : intAt ((r0 ++ [Value.int k]) ++
        [Value.arr (sparkSequence 1 (intAt (r0 ++ [Value.int k]) cols.length))])
        cols.length = intAt (r0 ++ [Value.int k]) cols.length := by
      have hlt : cols.length < (r0 ++ [Value.int k]).length := by simp [hl]
      unfold intAt
      rw [List.get?_append hlt]
    rw [hAt, ← hlen1]
    exact List.get?_concat_length _ _
  rw [show evalPlan (Plan.project (Plan.unnest (Plan.project
      (Plan.values (cols ++ [randName]) rows)
      ((cols ++ [randName]).map SExpr.column ++
        [SExpr.alias (SExpr.scalarFn "spark_sequence"
          [SExpr.litI64 1, SExpr.column randName])
          (register_field_name st "array_value").1]))
      (register_field_name st "array_value").1)
      (cols.map SExpr.column)) =
    (evalPlan (Plan.unnest (Plan.project (Plan.values (cols ++ [randName]) rows)
      ((cols ++ [randName]).map SExpr.column ++
        [SExpr.alias (SExpr.scalarFn "spark_sequence"
          [SExpr.litI64 1, SExpr.column randName])
          (register_field_name st "array_value").1]))
      (register_field_name st "array_value").1)).bind
      (fun rs => projRows (((cols ++ [randName]).map SExpr.column ++
        [SExpr.alias (SExpr.scalarFn "spark_sequence"
          [SExpr.litI64 1, SExpr.column randName])
          (register_field_name st "array_value").1]).map SExpr.outName)
        (cols.map SExpr.column) rs) from rfl, e2, hS1]
  have e3 : projRows ((cols ++ [randName]) ++ [(register_field_name st "array_value").1])
      (cols.map SExpr.column)
      ((rows.map fun r =>
          r ++ [Value.arr (sparkSequence 1 (intAt r cols.length))]).flatMap fun r' =>
        (sparkSequence 1 (intAt r' cols.length)).map fun v =>
          r'.set (cols.length + 1) v) =
      some (((rows.map fun r =>
          r ++ [Value.arr (sparkSequence 1 (intAt r cols.length))]).flatMap fun r' =>
        (sparkSequence 1 (intAt r' cols.length)).map fun v =>
          r'.set (cols.length + 1) v).map fun r'' => r''.take cols.length) := by
    refine projRows_of_eval fun r'' hr'' => ?_
    obtain ⟨r', hr', hm⟩ := List.mem_flatMap.mp hr''
    obtain ⟨r, hr, rfl⟩ := List.mem_map.mp hr'
    obtain ⟨r0, k, rfl, hl, hk⟩ := hshape r hr
    obtain ⟨v, hv, rfl⟩ := List.mem_map.mp hm
    have hlen1 : (r0 ++ [Value.int k]).length = cols.length + 1 := by simp [hl]
    have hset : ((r0 ++ [Value.int k]) ++
        [Value.arr (sparkSequence 1 (intAt (r0 ++ [Value.int k]) cols.length))]).set
        (cols.length + 1) v = (r0 ++ [Value.int k]) ++ [v] := by
      rw [← hlen1]
      exact set_concat _ _ _
    rw [hset]
    have htake : ((r0 ++ [Value.int k]) ++ [v]).take cols.length = r0 := by
      rw [List.append_assoc, ← hl]
      exact List.take_left _ _
    rw [htake]
    have := projRow_cols cols ([randName] ++ [(register_field_name st "array_value").1])
      r0 ([Value.int k] ++ [v]) hnodup0 hl
      (fun c hc hm2 => by
        rcases List.mem_append.mp hm2 with h | h
        · exact hfreshr (List.mem_singleton.mp h ▸ hc)
        · exact harrc (List.mem_singleton.mp h ▸ hc))
    simpa [List.append_assoc] using this
  rw [show ((some ((rows.map fun r =>
        r ++ [Value.arr (sparkSequence 1 (intAt r cols.length))]).flatMap fun r' =>
      (sparkSequence 1 (intAt r' cols.length)).map fun v =>
        r'.set (cols.length + 1) v) : Option (List (List Value))).bind
      fun rs => projRows ((cols ++ [randName]) ++ [(register_field_name st "array_value").1])
        (cols.map SExpr.column) rs) =
    projRows ((cols ++ [randName]) ++ [(register_field_name st "array_value").1])
      (cols.map SExpr.column)
      ((rows.map fun r =>
          r ++ [Value.arr (sparkSequence 1 (intAt r cols.length))]).flatMap fun r' =>
        (sparkSequence 1 (intAt r' cols.length)).map fun v =>
          r'.set (cols.length + 1) v) from rfl, e3]
  congr 1
  rw [List.map_flatMap, List.flatMap_map]
  refine flatMap_congr fun r hr => ?_
  obtain ⟨r0, k, rfl, hl, hk⟩ := hshape r hr
  have hint : intAt (r0 ++ [Value.int k]) cols.length = k := by
    rw [← hl]
    exact intAt_concat r0 k
  have hlen1 : (r0 ++ [Value.int k]).length = cols.length + 1 := by simp [hl]
  have hAt : intAt ((r0 ++ [Value.int k]) ++
      [Value.arr (sparkSequence 1 (intAt (r0 ++ [Value.int k]) cols.length))])
      cols.length = intAt (r0 ++ [Value.int k]) cols.length := by
    have hlt : cols.length < (r0 ++ [Value.int k]).length := by simp [hl]
    unfold intAt
    rw [List.get?_append hlt]
  show ((sparkSequence 1 (intAt ((r0 ++ [Value.int k]) ++
      [Value.arr (sparkSequence 1 (intAt (r0 ++ [Value.int k]) cols.length))])
      cols.length)).map fun v =>
        ((r0 ++ [Value.int k]) ++
          [Value.arr (sparkSequence 1 (intAt (r0 ++ [Value.int k]) cols.length))]).set
          (cols.length + 1) v).map (fun r'' => r''.take cols.length) =
    List.replicate (intAt (r0 ++ [Value.int k]) cols.length).toNat
      ((r0 ++ [Value.int k]).take cols.length)
  rw [hAt, List.map_map]
  have hfun : ((fun r'' => r''.take cols.length) ∘ fun v =>
      ((r0 ++ [Value.int k]) ++
        [Value.arr (sparkSequence 1 (intAt (r0 ++ [Value.int k]) cols.length))]).set
        (cols.length + 1) v) = fun _ => r0 := by
    funext v
    show (((r0 ++ [Value.int k]) ++
        [Value.arr (sparkSequence 1 (intAt (r0 ++ [Value.int k]) cols.length))]).set
        (cols.length + 1) v).take cols.length = r0
    rw [← hlen1, set_concat, List.append_assoc, ← hl]
    exact List.take_left _ _
  rw [hfun, List.map_const', sparkSequence_one_length]
  have htake2 : (r0 ++ [Value.int k]).take cols.length = r0 := by
    rw [← hl]
    exact List.take_left _ _
  rw [htake2, hint]

/-- Witness for C5: two rows with drawn counts 2 and 0; the first appears
twice in the evaluated output and the second disappears. -/
theorem with_replacement_expands_witness :
    resolve_sample_with_replacement
        (Plan.values (["a"] ++ ["r"]) [[Value.int 7, Value.int 2], [Value.int 8, Value.int 0]])
        "r" (["a"].map SExpr.column)
        { nextId := 0, osDraws := 0, inputResolutions := 0 } =
      (Except.ok (Plan.project (Plan.unnest (Plan.project
          (Plan.values (["a"] ++ ["r"])
            [[Value.int 7, Value.int 2], [Value.int 8, Value.int 0]])
          ((["a"] ++ ["r"]).map SExpr.column ++
            [SExpr.alias (SExpr.scalarFn "spark_sequence"
              [SExpr.litI64 1, SExpr.column "r"])
              (register_field_name
                { nextId := 0, osDraws := 0, inputResolutions := 0 } "array_value").1]))
          (register_field_name
            { nextId := 0, osDraws := 0, inputResolutions := 0 } "array_value").1)
          (["a"].map SExpr.column)),
        (register_field_name
          { nextId := 0, osDraws := 0, inputResolutions := 0 } "array_value").2) ∧
    evalPlan (Plan.project (Plan.unnest (Plan.project
        (Plan.values (["a"] ++ ["r"])
          [[Value.int 7, Value.int 2], [Value.int 8, Value.int 0]])
        ((["a"] ++ ["r"]).map SExpr.column ++
          [SExpr.alias (SExpr.scalarFn "spark_sequence"
            [SExpr.litI64 1, SExpr.column "r"])
            (register_field_name
              { nextId := 0, osDraws := 0, inputResolutions := 0 } "array_value").1]))
        (register_field_name
          { nextId := 0, osDraws := 0, inputResolutions := 0 } "array_value").1)
        (["a"].map SExpr.column)) =
      some ([[Value.int 7, Value.int 2], [Value.int 8, Value.int 0]].flatMap fun r =>
        List.replicate (intAt r (["a"] : List String).length).toNat
          (r.take (["a"] : List String).length)) :=
  with_replacement_expands ["a"] "r"
    [[Value.int 7, Value.int 2], [Value.int 8, Value.int 0]]
    { nextId := 0, osDraws := 0, inputResolutions := 0 }
    (by decide) (by decide)
    (by
      intro r hr
      rcases List.mem_cons.mp hr with h | h
      · subst h
        exact ⟨[Value.int 7], 2, rfl, rfl, by norm_num⟩
      · rw [List.mem_singleton] at h
        subst h
        exact ⟨[Value.int 8], 0, rfl, rfl, le_refl 0⟩)
